import Mathlib

/-!
Verification development for the privacy-firewall detection-and-decision engine.

The definitions below are a shallow embedding of the JavaScript sources of the
repository: the pattern scanner and policy helpers of the Scanner class, the
paste-handler decision pipeline, the AI-scan result handling, the NER entity
aggregator, the DOM insertion/rollback helpers, and the background liveness
probe. JavaScript numbers that carry confidence scores are modelled as
rationals, strings as Lean strings, and the DOM as an association list of
surfaces. Asynchronously delivered values (AI scan responses, probe results)
are passed to the embedded functions as explicit arguments.
-/

namespace PrivacyFirewall

/-- Model of the JavaScript method toUpperCase, applied character by
character to the underlying character list. -/
def jsToUpperCase (s : String) : String := ⟨s.data.map Char.toUpper⟩

/-- Model of the JavaScript method startsWith on the underlying character
list. -/
def jsStartsWith (s pre : String) : Bool := pre.data.isPrefixOf s.data

/-- Dropping the first n characters of a string, modelling the slice taken
by an anchored JavaScript replace. -/
def jsDrop (s : String) (n : Nat) : String := ⟨s.data.drop n⟩

/-- Model of the JavaScript method trim: remove leading and trailing
whitespace. -/
def jsTrim (s : String) : String :=
  ⟨((s.data.dropWhile Char.isWhitespace).reverse.dropWhile Char.isWhitespace).reverse⟩

/-- Lookup in a JavaScript object literal with string values, modelled as an
association list in source order. -/
def objLookup : List (String × String) → String → Option String
  | [], _ => none
  | (k, v) :: rest, t => if k = t then some v else objLookup rest t

/-- Embedding of PATTERN_TO_RULE_MAP from the scanner module: maps a regex
pattern type to the settings PII rule id. -/
def PATTERN_TO_RULE_MAP : List (String × String) :=
  [("email", "EMAIL"), ("phone_number", "PHONE"), ("credit_card", "CREDIT_CARD"),
   ("ssn", "SSN"), ("ip_address", "IP_ADDRESS"), ("aws_key", "API_KEY"),
   ("private_key", "API_KEY"), ("api_key", "API_KEY"), ("jwt", "API_KEY"),
   ("mac_address", "IP_ADDRESS"), ("address", "ADDRESS"), ("zipcode", "ADDRESS")]

/-- Embedding of the expression PATTERN_TO_RULE_MAP[pattern.type] ||
pattern.type.toUpperCase() in Scanner.scanLocally. Every value stored in the
map is a non-empty (hence truthy) string, so the JavaScript fallback fires
exactly when the lookup misses. -/
def patternRuleId (t : String) : String :=
  match objLookup PATTERN_TO_RULE_MAP t with
  | some r => r
  | none => jsToUpperCase t

/-- One entry of settings.piiRules: per-rule detect and block flags. -/
structure PiiRule where
  detect : Bool
  block : Bool
deriving DecidableEq, Repr

/-- The aiSettings part of the settings object; confidenceThreshold is
optional because the code reads it through optional chaining. -/
structure AISettings where
  enabled : Bool
  confidenceThreshold : Option ℚ
deriving DecidableEq, Repr

/-- The settings object consumed by the Scanner class. The piiRules table is
optional (the code guards with !this.settings.piiRules) and is modelled as a
partial lookup from rule id to rule. -/
structure Settings where
  piiRules : Option (String → Option PiiRule)
  aiSettings : AISettings

/-- Embedding of Scanner.isDetectionEnabled: missing settings, missing rule
table and missing rule all default to enabled. -/
def isDetectionEnabled (settings : Option Settings) (ruleId : String) : Bool :=
  match settings with
  | none => true
  | some s =>
    match s.piiRules with
    | none => true
    | some rules =>
      match rules ruleId with
      | some rule => rule.detect
      | none => true

/-- Embedding of Scanner.shouldBlock: missing settings, missing rule table
and missing rule all default to blocking. -/
def shouldBlock (settings : Option Settings) (ruleId : String) : Bool :=
  match settings with
  | none => true
  | some s =>
    match s.piiRules with
    | none => true
    | some rules =>
      match rules ruleId with
      | some rule => rule.block
      | none => true

/-- One finding as built by the scanner and paste handler. Local pattern
findings carry no score; AI findings keep the score and confidence fields of
the raw entity so that the threshold filter can read them. The field ftype
models the JavaScript field named type (a reserved word in Lean). -/
structure Finding where
  ftype : String
  ruleId : String
  value : String
  description : String
  score : Option ℚ
  confidence : Option ℚ
  shouldBlock : Bool
deriving DecidableEq, Repr

/-- One entry of the PATTERNS table: the pattern type, the regex as a
boolean test on the whole text (regex.test), and the description. -/
structure Pattern where
  ptype : String
  test : String → Bool
  desc : String

/-- The finding pushed by Scanner.scanLocally for a matching pattern: the
value is always redacted, and the block flag is resolved from the settings at
push time. -/
def mkPatternFinding (settings : Option Settings) (p : Pattern) : Finding :=
  { ftype := p.ptype, ruleId := patternRuleId p.ptype, value := "REDACTED",
    description := p.desc, score := none, confidence := none,
    shouldBlock := shouldBlock settings (patternRuleId p.ptype) }

/-- Loop body of Scanner.scanLocally (settings-aware version): for each
pattern, skip it when detection is disabled for its rule id, otherwise push a
redacted finding when the regex test succeeds. -/
def scanLocallyGo (settings : Option Settings) (text : String) :
    List Pattern → List Finding
  | [] => []
  | p :: ps =>
    if isDetectionEnabled settings (patternRuleId p.ptype) then
      if p.test text then
        mkPatternFinding settings p :: scanLocallyGo settings text ps
      else scanLocallyGo settings text ps
    else scanLocallyGo settings text ps

/-- Embedding of Scanner.scanLocally: empty or non-string input yields no
findings, otherwise every pattern is run over the full text. -/
def scanLocally (settings : Option Settings) (patterns : List Pattern)
    (text : String) : List Finding :=
  if text = "" then [] else scanLocallyGo settings text patterns

/-- The deduplication key used in PasteHandler.handlePaste: f.ruleId ||
f.type, where an empty string is falsy in JavaScript. -/
def jsKey (f : Finding) : String := if f.ruleId = "" then f.ftype else f.ruleId

/-- Loop of the seenTypes filter in PasteHandler.handlePaste: keep a finding
only when its key has not been seen yet. -/
def dedupFindingsGo (seen : List String) : List Finding → List Finding
  | [] => []
  | f :: rest =>
    if jsKey f ∈ seen then dedupFindingsGo seen rest
    else f :: dedupFindingsGo (jsKey f :: seen) rest

/-- Deduplication by rule id with first-seen wins, as in
PasteHandler.handlePaste step 3. -/
def dedupFindings (l : List Finding) : List Finding := dedupFindingsGo [] l

/-- Outcome of a paste decision: show the blocking modal, show the warning
banner while allowing the paste, or allow silently. -/
inductive Outcome where
  | block
  | warn
  | clean
deriving DecidableEq, Repr

/-- Result of combining findings in PasteHandler.handlePaste: outcome plus
the deduplicated blocking and warning partitions. -/
structure ScanDecision where
  outcome : Outcome
  blockingFindings : List Finding
  warningFindings : List Finding
deriving DecidableEq, Repr

/-- Embedding of steps 3 and onward of PasteHandler.handlePaste: concatenate
local and AI findings, deduplicate by rule id keeping the first occurrence,
partition by shouldBlock, then block when any blocking finding remains, warn
when only warning findings remain, and allow otherwise. -/
def decideFindings (localFindings aiFindings : List Finding) : ScanDecision :=
  let allFindings := localFindings ++ aiFindings
  let uniqueFindings := dedupFindings allFindings
  let blockingFindings := uniqueFindings.filter (fun f => f.shouldBlock)
  let warningFindings := uniqueFindings.filter (fun f => !f.shouldBlock)
  { outcome :=
      if blockingFindings.length > 0 then Outcome.block
      else if warningFindings.length > 0 then Outcome.warn
      else Outcome.clean,
    blockingFindings := blockingFindings,
    warningFindings := warningFindings }

/-- The full scan decision of PasteHandler.handlePaste for one input text:
synchronous local scan followed by the combination step. The aiFindings
argument is the value the asynchronous scanWithAI call resolved with; it is
the empty list whenever the engine is unreachable or the call failed. -/
def evaluateOutcome (settings : Option Settings) (patterns : List Pattern)
    (text : String) (aiFindings : List Finding) : ScanDecision :=
  decideFindings (scanLocally settings patterns text) aiFindings

/-- Embedding of AI_ENTITY_TO_RULE_MAP with its JavaScript fallback
AI_ENTITY_TO_RULE_MAP[finding.type] || finding.type. -/
def aiRuleId (t : String) : String :=
  if t = "PERSON" then "PERSON"
  else if t = "LOCATION" then "ADDRESS"
  else if t = "ORGANIZATION" then "PERSON"
  else t

/-- One raw entity as delivered in the data field of a successful AI scan
response. The field rtype models the JavaScript field named type. -/
structure AIRawFinding where
  rtype : String
  value : String
  description : String
  score : Option ℚ
  confidence : Option ℚ
deriving DecidableEq, Repr

/-- Model of the JavaScript expression x || fallback on an optional number:
undefined and 0 are falsy. -/
def jsOrNum (x : Option ℚ) (fallback : ℚ) : ℚ :=
  match x with
  | some v => if v = 0 then fallback else v
  | none => fallback

/-- The effective score read by the threshold filter in Scanner.scanWithAI:
finding.score || finding.confidence || 1. -/
def effectiveScore (f : Finding) : ℚ := jsOrNum f.score (jsOrNum f.confidence 1)

/-- The threshold read in Scanner.scanWithAI:
this.settings?.aiSettings?.confidenceThreshold || 0.5. -/
def aiConfidenceThreshold (settings : Option Settings) : ℚ :=
  match settings with
  | none => 1 / 2
  | some s => jsOrNum s.aiSettings.confidenceThreshold (1 / 2)

/-- Possible completions of the sendMessage round trip inside
Scanner.scanWithAI: no response (chrome.runtime.lastError or an undefined
response object), an unsuccessful response, or a successful response with a
data payload. -/
inductive AIResponse where
  | noResponse
  | failure (error : String)
  | success (data : List AIRawFinding)
deriving DecidableEq, Repr

/-- Whether a response is the successful case. -/
def AIResponse.isSuccess : AIResponse → Bool
  | .success _ => true
  | _ => false

/-- Embedding of Scanner.scanWithAI (settings-aware version). The function
resolves (never rejects): AI disabled, unreachable engine, empty text and
every non-success response all resolve to the empty list; a successful
response is enriched with rule id and shouldBlock, then filtered by detection
enablement and confidence threshold. -/
def scanWithAI (settings : Option Settings) (isReachable : Bool) (text : String)
    (resp : AIResponse) : List Finding :=
  if (match settings with | some s => !s.aiSettings.enabled | none => false) then []
  else if !isReachable || text = "" then []
  else
    match resp with
    | .noResponse => []
    | .failure _ => []
    | .success data =>
      (data.map (fun r =>
        { ftype := r.rtype, ruleId := aiRuleId r.rtype, value := r.value,
          description := r.description, score := r.score, confidence := r.confidence,
          shouldBlock := shouldBlock settings (aiRuleId r.rtype) })).filter
        (fun f => isDetectionEnabled settings f.ruleId
          && decide (aiConfidenceThreshold settings ≤ effectiveScore f))

/-- Observable events of one run of PasteHandler.handlePaste, in program
order: the call to preventDefault, completion of the synchronous local scan,
start and completion of the awaited AI scan, and the final decision (modal,
banner or re-insertion). -/
inductive PasteEvent where
  | prevented
  | localScanDone (findings : List Finding)
  | aiScanStarted
  | aiScanDone (findings : List Finding)
  | decided (outcome : Outcome)
deriving DecidableEq, Repr

/-- Whether an event is the final decision event. -/
def PasteEvent.isDecision : PasteEvent → Bool
  | .decided _ => true
  | _ => false

/-- Whether an event is the completion of the awaited AI scan. -/
def PasteEvent.isAiScanDone : PasteEvent → Bool
  | .aiScanDone _ => true
  | _ => false

/-- Trace semantics of PasteHandler.handlePaste: invalid or blank text
returns before any observable step; otherwise the handler prevents the
default paste, runs the local scan synchronously, awaits the AI scan when the
engine status is reachable (aiResult being the list the scanWithAI promise
resolved with, empty on any error), and only then emits its single combined
decision. When the engine is unreachable the AI findings stay empty and the
decision follows the local scan directly. -/
def handlePasteTrace (settings : Option Settings) (patterns : List Pattern)
    (isReachable : Bool) (pastedText : String) (aiResult : List Finding) :
    List PasteEvent :=
  if jsTrim pastedText = "" then []
  else
    let localFindings := scanLocally settings patterns pastedText
    if isReachable then
      [PasteEvent.prevented, PasteEvent.localScanDone localFindings,
       PasteEvent.aiScanStarted, PasteEvent.aiScanDone aiResult,
       PasteEvent.decided (decideFindings localFindings aiResult).outcome]
    else
      [PasteEvent.prevented, PasteEvent.localScanDone localFindings,
       PasteEvent.decided (decideFindings localFindings []).outcome]

/-- Kind of editable target surface, selected once at capture time: a plain
input or textarea, or a contentEditable region. -/
inductive AnchorKind where
  | input
  | contentEditable
deriving DecidableEq, Repr

/-- One editable surface of the page. The content field stands for the value
property of an input and for the innerHTML of a contentEditable region, the
representation read at capture time and written back on restore. The
connected flag models Node.isConnected. -/
structure Surface where
  kind : AnchorKind
  content : String
  selStart : Nat
  selEnd : Nat
  connected : Bool
deriving DecidableEq, Repr

/-- The page: an association list from node identity to surface, plus the
identity of the currently focused element. -/
structure Dom where
  surfaces : List (Nat × Surface)
  activeElement : Option Nat
deriving DecidableEq, Repr

/-- Lookup of a surface in the association list by node identity. -/
def lookupSurface : List (Nat × Surface) → Nat → Option Surface
  | [], _ => none
  | (k, s) :: rest, nodeId => if k = nodeId then some s else lookupSurface rest nodeId

/-- Lookup of a node of the page by identity. -/
def domLookup (dom : Dom) (nodeId : Nat) : Option Surface :=
  lookupSurface dom.surfaces nodeId

/-- Updating the content of the surface with the given identity in the
association list. -/
def setSurfaceContent : List (Nat × Surface) → Nat → String → List (Nat × Surface)
  | [], _, _ => []
  | (k, s) :: rest, nodeId, content =>
    if k = nodeId then (k, { s with content := content }) :: setSurfaceContent rest nodeId content
    else (k, s) :: setSurfaceContent rest nodeId content

/-- Writing the content of a node (element.value or element.innerHTML
assignment). -/
def domSetContent (dom : Dom) (nodeId : Nat) (content : String) : Dom :=
  { dom with surfaces := setSurfaceContent dom.surfaces nodeId content }

/-- The first connected surface of a given kind in document order, modelling
the querySelector fallbacks of restoreFromContext. -/
def firstOfKind : List (Nat × Surface) → AnchorKind → Option Nat
  | [], _ => none
  | (k, s) :: rest, kd =>
    if s.connected = true ∧ s.kind = kd then some k else firstOfKind rest kd

/-- Best-effort discovery used by restoreFromContext when the captured node
is gone: take the active element when it has the right kind, otherwise the
first connected surface of that kind in document order. -/
def querySurface (dom : Dom) (kind : AnchorKind) : Option Nat :=
  match dom.activeElement with
  | some activeId =>
    match domLookup dom activeId with
    | some s => if s.kind = kind then some activeId else firstOfKind dom.surfaces kind
    | none => firstOfKind dom.surfaces kind
  | none => firstOfKind dom.surfaces kind

/-- The insertion context captured by captureInsertionContext before any
content mutation. The ctype field models the JavaScript field named type;
previousContent stores the full content of the target before the paste. The
cloned DOM Range of the contentEditable case is opaque to the decision logic
and is not modelled (restoreFromContext never reads it). -/
structure InsertionContext where
  ctype : AnchorKind
  nodeId : Nat
  selStart : Nat
  selEnd : Nat
  previousContent : String
deriving DecidableEq, Repr

/-- Embedding of captureInsertionContext (the version storing
previousContent): a missing target yields null; an input stores the selection
bounds and the value; a contentEditable region stores the innerHTML. -/
def captureInsertionContext (dom : Dom) (targetId : Nat) : Option InsertionContext :=
  match domLookup dom targetId with
  | none => none
  | some s =>
    match s.kind with
    | .input =>
      some { ctype := .input, nodeId := targetId, selStart := s.selStart,
             selEnd := s.selEnd, previousContent := s.content }
    | .contentEditable =>
      some { ctype := .contentEditable, nodeId := targetId, selStart := 0,
             selEnd := 0, previousContent := s.content }

/-- Embedding of restoreFromContext: use the captured node when it is still
connected, otherwise fall back to best-effort discovery by kind; when an
element is found, overwrite its content with the stored previousContent, and
otherwise leave the page unchanged (the non-fatal could-not-restore path). -/
def restoreFromContext (dom : Dom) (ctx : InsertionContext) : Dom :=
  let element : Option Nat :=
    match domLookup dom ctx.nodeId with
    | some s => if s.connected then some ctx.nodeId else querySurface dom ctx.ctype
    | none => querySurface dom ctx.ctype
  match element with
  | none => dom
  | some nodeId => domSetContent dom nodeId ctx.previousContent

/-- Embedding of removeTextFromElement: a context captured by the embedded
captureInsertionContext always carries previousContent, so the function
delegates to restoreFromContext; without a context it falls back to clearing
the active editable element. -/
def removeTextFromElement (dom : Dom) (ctx : Option InsertionContext) : Dom :=
  match ctx with
  | some c => restoreFromContext dom c
  | none =>
    match dom.activeElement with
    | some activeId => domSetContent dom activeId ""
    | none => dom

/-- Embedding of the handleCancel closure of FirewallModal.attachEventHandlers:
when the paste was already inserted (the late AI revision case), remove the
pasted text through the stored context; otherwise just close the modal. -/
def handleCancel (pasteAlreadyInserted : Bool) (ctx : Option InsertionContext)
    (dom : Dom) : Dom :=
  if pasteAlreadyInserted then removeTextFromElement dom ctx else dom

/-- Embedding of checkEngineStatus in the polling background script: the
probe result is some ok when the health fetch returned (ok being res.ok) and
none when it threw or hit the 3 second timeout. The function returns the new
reachability state together with the notifications sent; previousStatus is
read by the source but never compared, and notifyContentScripts runs
unconditionally after every probe, so exactly one notification carrying the
new state is always emitted. -/
def checkEngineStatus (isEngineReachable : Bool) (probeResult : Option Bool) :
    Bool × List Bool :=
  let _previousStatus := isEngineReachable
  let newStatus :=
    match probeResult with
    | some ok => ok
    | none => false
  (newStatus, [newStatus])

/-- Folding checkEngineStatus over a sequence of probe results, collecting
every notification sent to content scripts. -/
def runEngineChecks : Bool → List (Option Bool) → Bool × List Bool
  | st, [] => (st, [])
  | st, probe :: rest =>
    let step := checkEngineStatus st probe
    let next := runEngineChecks step.1 rest
    (next.1, step.2 ++ next.2)

/-- One raw token-classification result as returned by the NER pipeline:
the BIO-tagged entity label, the (possibly subword) token text, the score,
and the character span. The span fields model the JavaScript fields start and
end (end is a reserved word in Lean). -/
structure RawToken where
  entity : String
  word : String
  score : ℚ
  tstart : Int
  tend : Int
deriving DecidableEq, Repr

/-- Model of the replacement entity.replace with the anchored regex matching
a leading B- or I- tag. -/
def stripBioTag (s : String) : String :=
  if jsStartsWith s "B-" || jsStartsWith s "I-" then jsDrop s 2 else s

/-- The cleaned upper-cased entity label computed in the filter and in
mapEntityType. -/
def cleanTag (s : String) : String := jsToUpperCase (stripBioTag s)

/-- Embedding of mapEntityType with its object-lookup fallback to the
cleaned label itself. -/
def mapEntityType (s : String) : String :=
  let c := cleanTag s
  if c = "PER" then "PERSON"
  else if c = "PERSON" then "PERSON"
  else if c = "ORG" then "ORGANIZATION"
  else if c = "ORGANIZATION" then "ORGANIZATION"
  else if c = "LOC" then "LOCATION"
  else if c = "LOCATION" then "LOCATION"
  else if c = "MISC" then "MISC"
  else c

/-- Embedding of getDescription with its fallback description. -/
def getDescription (s : String) : String :=
  let c := cleanTag s
  if c = "PER" then "Person Name"
  else if c = "PERSON" then "Person Name"
  else if c = "ORG" then "Organization Name"
  else if c = "ORGANIZATION" then "Organization Name"
  else if c = "LOC" then "Location"
  else if c = "LOCATION" then "Location"
  else "Entity"

/-- Model of token.word.replace stripping one leading subword continuation
marker of two hash characters. -/
def jsStripSubword (w : String) : String :=
  if jsStartsWith w "##" then jsDrop w 2 else w

/-- One aggregated entity of detectEntities. The fields etype, estart and
eend model the JavaScript fields type, start and end (reserved words in
Lean). -/
structure Entity where
  etype : String
  value : String
  score : ℚ
  description : String
  estart : Int
  eend : Int
deriving DecidableEq, Repr

/-- The fresh accumulator started from one token, as built in the isBeginning
branch and in the implicit-begin else branch of the aggregation loop. -/
def newEntityOfToken (tok : RawToken) : Entity :=
  { etype := mapEntityType tok.entity, value := jsStripSubword tok.word,
    score := tok.score, description := getDescription tok.entity,
    estart := tok.tstart, eend := tok.tend }

/-- One iteration of the BIO aggregation loop in detectEntities: a B-tagged
token closes the open accumulator and starts a new one; an I-tagged token of
the same category extends the accumulator, concatenating directly when the
gap between spans is at most one character and inserting a single space
otherwise, and keeps the minimum score; any other token closes the
accumulator and starts a new one from itself. Returns the new accumulator and
the entities emitted by this step. -/
def aggregateStep (currentEntity : Option Entity) (tok : RawToken) :
    Option Entity × List Entity :=
  let entityType := mapEntityType tok.entity
  let word := jsStripSubword tok.word
  if jsStartsWith tok.entity "B-" then
    (some (newEntityOfToken tok), currentEntity.toList)
  else
    match currentEntity with
    | some cur =>
      if jsStartsWith tok.entity "I-" && cur.etype == entityType then
        let gap : Int := tok.tstart - cur.eend
        (some { cur with
                value := if gap ≤ 1 then cur.value ++ word else cur.value ++ " " ++ word,
                eend := tok.tend,
                score := min cur.score tok.score }, [])
      else (some (newEntityOfToken tok), [cur])
    | none => (some (newEntityOfToken tok), [])

/-- The aggregation loop over the filtered token stream, closing the open
accumulator at stream end. -/
def aggregateLoop : Option Entity → List RawToken → List Entity
  | cur, [] => cur.toList
  | cur, tok :: rest =>
    let step := aggregateStep cur tok
    step.2 ++ aggregateLoop step.1 rest

/-- Collapsing runs of whitespace into single spaces, the global replacement
in the cleanup map of detectEntities. The flag records whether the previous
character was whitespace. -/
def collapseWhitespaceGo : Bool → List Char → List Char
  | _, [] => []
  | prevWs, c :: rest =>
    if c.isWhitespace then
      if prevWs then collapseWhitespaceGo true rest
      else ' ' :: collapseWhitespaceGo true rest
    else c :: collapseWhitespaceGo false rest

/-- The value cleanup applied to each aggregated entity: trim, then collapse
internal whitespace. -/
def cleanEntityValue (e : Entity) : Entity :=
  { e with value := ⟨collapseWhitespaceGo false (jsTrim e.value).data⟩ }

/-- Lookup in the insertion-ordered map used for deduplication by type. -/
def lookupType : List (String × Entity) → String → Option Entity
  | [], _ => none
  | (k, v) :: rest, t => if k = t then some v else lookupType rest t

/-- In-place update of an existing key, modelling Map.prototype.set on a
present key, which keeps the original insertion position. -/
def updateType : List (String × Entity) → Entity → List (String × Entity)
  | [], e => [(e.etype, e)]
  | (k, old) :: rest, e =>
    if k = e.etype then (k, e) :: rest else (k, old) :: updateType rest e

/-- One step of the byType deduplication fold in detectEntities: insert when
the category is new, replace when the candidate value is strictly longer, and
keep the existing entry otherwise. -/
def byTypeFold (m : List (String × Entity)) (e : Entity) : List (String × Entity) :=
  match lookupType m e.etype with
  | none => m ++ [(e.etype, e)]
  | some existing =>
    if existing.value.length < e.value.length then updateType m e else m

/-- Deduplication by entity category in detectEntities, returning the map
values in insertion order (Array.from of Map.values). -/
def dedupByType (l : List Entity) : List Entity :=
  (l.foldl byTypeFold []).map (fun ke => ke.2)

/-- Embedding of detectEntities from the raw NER results onward (the model
invocation itself is the external classification collaborator): filter by
threshold and by the MISC and O labels, aggregate with the BIO loop, clean
the values, and deduplicate by category. -/
def detectEntities (results : List RawToken) (threshold : ℚ) : List Entity :=
  let filtered := results.filter (fun tok =>
    decide (threshold ≤ tok.score)
      && !(cleanTag tok.entity == "MISC") && !(cleanTag tok.entity == "O"))
  let aggregated := aggregateLoop none filtered
  let cleaned := aggregated.map cleanEntityValue
  dedupByType cleaned

/-- Modelled from the spec: the deduplication policy stated in section 4.2
step 6, keeping for each category the entity with the longest resulting value
and breaking ties in favour of the first-seen entity. Used only as the
specification side of the refinement comparison for the deduplication claim. -/
def specKeepLongest (l : List Entity) (t : String) : Option Entity :=
  (l.filter (fun e => e.etype == t)).foldl
    (fun acc e =>
      match acc with
      | none => some e
      | some a => if a.value.length < e.value.length then some e else some a) none

/-- Well-formedness of the byType deduplication map: every stored entity has
its own category as key, and keys are pairwise distinct. This is the
invariant maintained by the fold in dedupByType. -/
def mapWf (m : List (String × Entity)) : Prop :=
  (∀ ke ∈ m, ke.2.etype = ke.1) ∧ (m.map (fun ke => ke.1)).Nodup

/-- A concrete pattern-table entry used to instantiate the scanner theorems:
the email pattern with its regex specialised to one text. -/
def emailPattern : Pattern :=
  { ptype := "email", test := fun t => t == "john@x.com", desc := "Email Address" }

/-- A concrete AI finding used to instantiate the paste-handler theorems. -/
def aiPersonFinding : Finding :=
  { ftype := "PERSON", ruleId := "PERSON", value := "John",
    description := "Person Name", score := some (9 / 10), confidence := none,
    shouldBlock := true }

/-- A concrete page with a single attached input surface, used to
instantiate the rollback theorem. -/
def captureDom : Dom :=
  { surfaces := [(1, { kind := .input, content := "draft text", selStart := 4,
                       selEnd := 4, connected := true })],
    activeElement := some 1 }

/-- The same page after an optimistic paste mutated the surface content. -/
def pastedDom : Dom :=
  { surfaces := [(1, { kind := .input, content := "draft 555-12-3456 text",
                       selStart := 17, selEnd := 17, connected := true })],
    activeElement := some 1 }

/-- The open accumulator after reading B-PER John in scenario C. -/
def johnEntity : Entity :=
  { etype := "PERSON", value := "John", score := mkRat 9 10,
    description := "Person Name", estart := 0, eend := 4 }

/-- The continuation token I-PER with the subword text of scenario C. -/
def sonToken : RawToken :=
  { entity := "I-PER", word := "##son", score := mkRat 8 10, tstart := 4, tend := 7 }

theorem jsToUpperCase_empty {s : String} (h : jsToUpperCase s = "") : s = "" := by
  cases s with
  | mk data =>
    cases data with
    | nil => rfl
    | cons c cs =>
      have hd : (Char.toUpper c :: cs.map Char.toUpper) = ([] : List Char) :=
        congrArg String.data h
      exact List.noConfusion hd

theorem objLookup_ne_empty {l : List (String × String)} {t r : String}
    (hv : ∀ kv ∈ l, kv.2 ≠ "") (h : objLookup l t = some r) : r ≠ "" := by
  induction l with
  | nil => exact absurd h (by simp [objLookup])
  | cons kv rest ih =>
    rw [objLookup] at h
    split_ifs at h with hk
    · cases h; exact hv kv (List.mem_cons_self kv rest)
    · exact ih (fun x hx => hv x (List.mem_cons_of_mem kv hx)) h

theorem patternRuleId_empty {t : String} (h : patternRuleId t = "") : t = "" := by
  unfold patternRuleId at h
  cases hm : objLookup PATTERN_TO_RULE_MAP t with
  | none => rw [hm] at h; exact jsToUpperCase_empty h
  | some r =>
    rw [hm] at h
    subst h
    exact absurd rfl (objLookup_ne_empty (l := PATTERN_TO_RULE_MAP) (by decide) hm)

theorem find?_append_left {α : Type} (p : α → Bool) {l₁ : List α} (l₂ : List α) {x : α}
    (h : l₁.find? p = some x) : (l₁ ++ l₂).find? p = some x := by
  induction l₁ with
  | nil => exact absurd h (by simp)
  | cons a rest ih =>
    by_cases ha : p a = true
    · rw [List.find?_cons_of_pos _ ha] at h
      rw [List.cons_append, List.find?_cons_of_pos _ ha]
      exact h
    · rw [List.find?_cons_of_neg _ (by simpa using ha)] at h
      rw [List.cons_append, List.find?_cons_of_neg _ (by simpa using ha)]
      exact ih h

theorem dedupGo_filter_of_mem {k : String} :
    ∀ (l : List Finding) (seen : List String), k ∈ seen →
      (dedupFindingsGo seen l).filter (fun f => jsKey f == k) = []
  | [], _, _ => rfl
  | f :: rest, seen, hk => by
    rw [dedupFindingsGo]
    split_ifs with hf
    · exact dedupGo_filter_of_mem rest seen hk
    · rw [List.filter_cons]
      have hne : (jsKey f == k) = false := by
        apply beq_eq_false_iff_ne.mpr
        intro he
        exact hf (he ▸ hk)
      rw [hne]
      simp only [Bool.false_eq_true, if_false]
      exact dedupGo_filter_of_mem rest (jsKey f :: seen) (List.mem_cons_of_mem _ hk)

theorem dedupGo_filter_of_not_mem {k : String} :
    ∀ (l : List Finding) (seen : List String), k ∉ seen →
      (dedupFindingsGo seen l).filter (fun f => jsKey f == k)
        = (l.find? (fun f => jsKey f == k)).toList
  | [], _, _ => rfl
  | f :: rest, seen, hk => by
    rw [dedupFindingsGo]
    split_ifs with hf
    · have hne : ¬ ((jsKey f == k) = true) := by
        intro he
        exact hk ((beq_iff_eq.mp he) ▸ hf)
      rw [List.find?_cons_of_neg (p := fun g => jsKey g == k) _ hne]
      exact dedupGo_filter_of_not_mem rest seen hk
    · by_cases hfk : jsKey f = k
      · rw [List.filter_cons]
        have hpk : (jsKey f == k) = true := beq_iff_eq.mpr hfk
        rw [List.find?_cons_of_pos (p := fun g => jsKey g == k) _ hpk, hpk]
        simp only [if_true]
        have hrest : (dedupFindingsGo (jsKey f :: seen) rest).filter
            (fun f => jsKey f == k) = [] :=
          dedupGo_filter_of_mem rest (jsKey f :: seen) (hfk ▸ List.mem_cons_self _ _)
        rw [hrest]
        rfl
      · rw [List.filter_cons]
        have hne : (jsKey f == k) = false := beq_eq_false_iff_ne.mpr hfk
        rw [List.find?_cons_of_neg (p := fun g => jsKey g == k) _ (by simp [hne]), hne]
        simp only [Bool.false_eq_true, if_false]
        refine dedupGo_filter_of_not_mem rest (jsKey f :: seen) ?_
        intro hmem
        rcases List.mem_cons.mp hmem with he | hs
        · exact hfk he.symm
        · exact hk hs

theorem dedupFindings_filter_key (l : List Finding) (k : String) :
    (dedupFindings l).filter (fun f => jsKey f == k)
      = (l.find? (fun f => jsKey f == k)).toList :=
  dedupGo_filter_of_not_mem l [] (List.not_mem_nil k)

theorem filterComm {α : Type} (p q : α → Bool) (l : List α) :
    (l.filter p).filter q = (l.filter q).filter p := by
  induction l with
  | nil => rfl
  | cons a rest ih =>
    by_cases hp : p a = true <;> by_cases hq : q a = true <;>
      simp [List.filter_cons, hp, hq, ih]

theorem scanLocallyGo_spec {settings : Option Settings} {text : String} :
    ∀ {ps : List Pattern} {f : Finding}, f ∈ scanLocallyGo settings text ps →
      f.ruleId = patternRuleId f.ftype ∧ f.shouldBlock = shouldBlock settings f.ruleId := by
  intro ps
  induction ps with
  | nil => intro f hf; cases hf
  | cons p rest ih =>
    intro f hf
    simp only [scanLocallyGo] at hf
    split_ifs at hf with h1 h2
    · rcases List.mem_cons.mp hf with rfl | hmem
      · exact ⟨rfl, rfl⟩
      · exact ih hmem
    · exact ih hf
    · exact ih hf

theorem mem_scanLocallyGo {settings : Option Settings} {text : String} {p : Pattern}
    {ps : List Pattern} (hp : p ∈ ps)
    (hdet : isDetectionEnabled settings (patternRuleId p.ptype) = true)
    (htest : p.test text = true) :
    mkPatternFinding settings p ∈ scanLocallyGo settings text ps := by
  induction ps with
  | nil => cases hp
  | cons q rest ih =>
    rcases List.mem_cons.mp hp with rfl | hmem
    · simp only [scanLocallyGo, hdet, htest, if_true]
      exact List.mem_cons_self _ _
    · simp only [scanLocallyGo]
      split_ifs with h1 h2
      · exact List.mem_cons_of_mem _ (ih hmem)
      · exact ih hmem
      · exact ih hmem

theorem jsKey_ruleId_eq {f g : Finding}
    (hf : f.ruleId = patternRuleId f.ftype) (hg : g.ruleId = patternRuleId g.ftype)
    (hk : jsKey f = jsKey g) : f.ruleId = g.ruleId := by
  unfold jsKey at hk
  split_ifs at hk with h1 h2 h2
  · rw [h1, h2]
  · have hft : f.ftype = "" := patternRuleId_empty (hf.symm.trans h1)
    exact absurd (hk.symm.trans hft) h2
  · have hgt : g.ftype = "" := patternRuleId_empty (hg.symm.trans h2)
    rw [hgt] at hk
    exact absurd hk h1
  · exact hk

theorem scanLocally_spec {settings : Option Settings} {patterns : List Pattern}
    {text : String} {f : Finding} (hf : f ∈ scanLocally settings patterns text) :
    f.ruleId = patternRuleId f.ftype ∧ f.shouldBlock = shouldBlock settings f.ruleId := by
  unfold scanLocally at hf
  split_ifs at hf with h
  · cases hf
  · exact scanLocallyGo_spec hf

/-- C1: for every input text and every list of asynchronously delivered AI
findings (in particular the empty list delivered when the classification
collaborator is unavailable or fails), if some pattern rule matches the text,
detection is enabled for its rule, and the rule blocks on match, then the
combined paste decision of PasteHandler.handlePaste is block, which shows the
blocking modal. -/
theorem C1_pattern_match_blocks (settings : Option Settings) (patterns : List Pattern)
    (text : String) (aiFindings : List Finding) (p : Pattern)
    (hp : p ∈ patterns) (htext : text ≠ "") (htest : p.test text = true)
    (hdet : isDetectionEnabled settings (patternRuleId p.ptype) = true)
    (hblk : shouldBlock settings (patternRuleId p.ptype) = true) :
    (evaluateOutcome settings patterns text aiFindings).outcome = Outcome.block := by
  have hfp : mkPatternFinding settings p ∈ scanLocally settings patterns text := by
    unfold scanLocally
    rw [if_neg htext]
    exact mem_scanLocallyGo hp hdet htest
  set fp : Finding := mkPatternFinding settings p with hfpdef
  set lf := scanLocally settings patterns text with hlf
  set k := jsKey fp with hk
  have hsome : (lf.find? (fun g => jsKey g == k)).isSome := by
    rw [List.find?_isSome]
    exact ⟨fp, hfp, beq_iff_eq.mpr rfl⟩
  obtain ⟨f₀, hfind⟩ := Option.isSome_iff_exists.mp hsome
  have hmem₀ : f₀ ∈ lf := List.mem_of_find?_eq_some hfind
  have hkey₀b := List.find?_some hfind
  have hkey₀ : jsKey f₀ = k := beq_iff_eq.mp hkey₀b
  have spec₀ := scanLocally_spec hmem₀
  have specp : fp.ruleId = patternRuleId fp.ftype := rfl
  have hrule : f₀.ruleId = fp.ruleId := jsKey_ruleId_eq spec₀.1 specp hkey₀
  have hblk₀ : f₀.shouldBlock = true := by
    rw [spec₀.2, hrule]
    exact hblk
  have hfind2 : ((lf ++ aiFindings).find? (fun g => jsKey g == k)) = some f₀ :=
    find?_append_left _ aiFindings hfind
  have hfilter : (dedupFindings (lf ++ aiFindings)).filter (fun g => jsKey g == k) = [f₀] := by
    rw [dedupFindings_filter_key, hfind2]
    rfl
  have hmemdedup : f₀ ∈ dedupFindings (lf ++ aiFindings) :=
    List.mem_of_mem_filter (hfilter ▸ List.mem_singleton.mpr rfl)
  have hmemblock : f₀ ∈ (dedupFindings (lf ++ aiFindings)).filter (fun g => g.shouldBlock) :=
    List.mem_filter.mpr ⟨hmemdedup, hblk₀⟩
  have hpos : 0 < ((dedupFindings (lf ++ aiFindings)).filter (fun g => g.shouldBlock)).length :=
    List.length_pos.mpr (List.ne_nil_of_mem hmemblock)
  show (decideFindings lf aiFindings).outcome = Outcome.block
  simp only [decideFindings]
  rw [if_pos (by simpa using hpos)]

/-- Witness for C1 at a concrete text, pattern table and empty AI result. -/
theorem C1_witness :
    (evaluateOutcome none [emailPattern] "john@x.com" []).outcome = Outcome.block :=
  C1_pattern_match_blocks none [emailPattern] "john@x.com" [] emailPattern
    (List.mem_singleton.mpr rfl) (by decide) (by decide) rfl rfl

/-- C3: when the merged finding list (pattern findings followed by entity
findings) contains two or more findings with the same deduplication key, the
deduplicated list contains exactly one finding with that key, namely the
first one in merge order, and the blocking and warning partitions together
hold exactly one entry for that key. -/
theorem C3_dedup_first_seen (localFindings aiFindings : List Finding) (k : String)
    (h : 2 ≤ ((localFindings ++ aiFindings).filter (fun f => jsKey f == k)).length) :
    ∃ f₀, (localFindings ++ aiFindings).find? (fun f => jsKey f == k) = some f₀ ∧
      (dedupFindings (localFindings ++ aiFindings)).filter (fun f => jsKey f == k) = [f₀] ∧
      ((decideFindings localFindings aiFindings).blockingFindings.filter
          (fun f => jsKey f == k)).length
        + ((decideFindings localFindings aiFindings).warningFindings.filter
          (fun f => jsKey f == k)).length = 1 := by
  set all := localFindings ++ aiFindings with hall
  have hne : all.filter (fun f => jsKey f == k) ≠ [] := by
    intro he
    rw [he] at h
    simp at h
  obtain ⟨f, hfmem⟩ := List.exists_mem_of_ne_nil _ hne
  have hsome : (all.find? (fun f => jsKey f == k)).isSome := by
    rw [List.find?_isSome]
    exact ⟨f, List.mem_of_mem_filter hfmem, (List.mem_filter.mp hfmem).2⟩
  obtain ⟨f₀, hfind⟩ := Option.isSome_iff_exists.mp hsome
  have hfilter : (dedupFindings all).filter (fun f => jsKey f == k) = [f₀] := by
    rw [dedupFindings_filter_key, hfind]
    rfl
  refine ⟨f₀, hfind, hfilter, ?_⟩
  simp only [decideFindings]
  rw [filterComm (fun f => f.shouldBlock) (fun f => jsKey f == k),
    filterComm (fun f => !f.shouldBlock) (fun f => jsKey f == k), hfilter]
  by_cases hb : f₀.shouldBlock = true <;> simp [List.filter_cons, hb]

/-- Witness for C3 on a merged list with two findings of the same rule. -/
theorem C3_witness :
    ∃ f₀, ([aiPersonFinding] ++ [aiPersonFinding]).find?
        (fun f => jsKey f == "PERSON") = some f₀ ∧
      (dedupFindings ([aiPersonFinding] ++ [aiPersonFinding])).filter
        (fun f => jsKey f == "PERSON") = [f₀] ∧
      ((decideFindings [aiPersonFinding] [aiPersonFinding]).blockingFindings.filter
          (fun f => jsKey f == "PERSON")).length
        + ((decideFindings [aiPersonFinding] [aiPersonFinding]).warningFindings.filter
          (fun f => jsKey f == "PERSON")).length = 1 :=
  C3_dedup_first_seen [aiPersonFinding] [aiPersonFinding] "PERSON" (by decide)

/-- C4: the policy evaluator fails safe toward protection: with missing
settings, a missing piiRules table, or a rule id absent from the table, both
isDetectionEnabled and shouldBlock return true. -/
theorem C4_missing_rule_fail_safe :
    (∀ ruleId : String,
        isDetectionEnabled none ruleId = true ∧ shouldBlock none ruleId = true)
    ∧ (∀ (ai : AISettings) (ruleId : String),
        isDetectionEnabled (some ⟨none, ai⟩) ruleId = true
          ∧ shouldBlock (some ⟨none, ai⟩) ruleId = true)
    ∧ (∀ (rules : String → Option PiiRule) (ai : AISettings) (ruleId : String),
        rules ruleId = none →
        isDetectionEnabled (some ⟨some rules, ai⟩) ruleId = true
          ∧ shouldBlock (some ⟨some rules, ai⟩) ruleId = true) := by
  refine ⟨fun r => ⟨rfl, rfl⟩, fun ai r => ⟨rfl, rfl⟩, fun rules ai r h => ?_⟩
  constructor <;> simp [isDetectionEnabled, shouldBlock, h]

/-- Witness for C4 with a concrete rule table that has no entry at all. -/
theorem C4_witness :
    isDetectionEnabled (some ⟨some (fun _ => none), ⟨true, none⟩⟩) "EMAIL" = true
      ∧ shouldBlock (some ⟨some (fun _ => none), ⟨true, none⟩⟩) "EMAIL" = true :=
  C4_missing_rule_fail_safe.2.2 (fun _ => none) ⟨true, none⟩ "EMAIL" rfl

/-- C6: scanWithAI resolves to the empty list on every response that is not
a success (runtime error, missing response, unsuccessful response), it never
rejects, and the paste decision computed from such a failed AI scan equals
the decision computed from pattern findings alone. -/
theorem C6_ai_failure_yields_empty :
    (∀ (settings : Option Settings) (isReachable : Bool) (text : String) (resp : AIResponse),
        resp.isSuccess = false → scanWithAI settings isReachable text resp = [])
    ∧ (∀ (settings : Option Settings) (patterns : List Pattern) (text : String)
        (resp : AIResponse), resp.isSuccess = false →
        evaluateOutcome settings patterns text (scanWithAI settings true text resp)
          = evaluateOutcome settings patterns text []) := by
  have base : ∀ (settings : Option Settings) (isReachable : Bool) (text : String)
      (resp : AIResponse), resp.isSuccess = false →
      scanWithAI settings isReachable text resp = [] := by
    intro settings isReachable text resp h
    cases resp with
    | success data => simp [AIResponse.isSuccess] at h
    | noResponse => unfold scanWithAI; split_ifs <;> rfl
    | failure e => unfold scanWithAI; split_ifs <;> rfl
  exact ⟨base, fun settings patterns text resp h => by rw [base settings true text resp h]⟩

/-- Witness for C6 at a concrete failure response and a concrete missing
response. -/
theorem C6_witness :
    scanWithAI none true "john@x.com" (AIResponse.failure "HTTP 500") = []
      ∧ evaluateOutcome none [emailPattern] "john@x.com"
          (scanWithAI none true "john@x.com" AIResponse.noResponse)
        = evaluateOutcome none [emailPattern] "john@x.com" [] :=
  ⟨C6_ai_failure_yields_empty.1 none true "john@x.com" (AIResponse.failure "HTTP 500") rfl,
   C6_ai_failure_yields_empty.2 none [emailPattern] "john@x.com" AIResponse.noResponse rfl⟩

/-- C7 (amended): the background liveness-probe path of checkEngineStatus
sends exactly one notification to content scripts per probe, regardless of
whether the reachability state changed; flapping is not coalesced. -/
theorem C7_notifies_every_probe (init : Bool) (probes : List (Option Bool)) :
    (runEngineChecks init probes).2.length = probes.length := by
  induction probes generalizing init with
  | nil => rfl
  | cons p rest ih => simp [runEngineChecks, checkEngineStatus, ih]

/-- C7 counterexample: from the unreachable state, a failed probe leaves
the reachability state unchanged and still emits a notification, and two
unchanged probes emit two notifications, refuting the claim that subscribers
are notified only on actual state change. -/
theorem C7_counterexample :
    runEngineChecks false [some false, some false] = (false, [false, false]) ∧
    ¬ (∀ (st : Bool) (probe : Option Bool),
        (checkEngineStatus st probe).2 ≠ [] → (checkEngineStatus st probe).1 ≠ st) := by
  constructor
  · decide
  · intro h
    exact h false (some false) (by decide) rfl

/-- C2 (amended): PasteHandler.handlePaste emits a single decision per
paste; with a reachable engine the full event trace places that decision
strictly after the awaited AI scan completes and it incorporates the AI
findings, so no pattern-only initial decision is observable earlier, while
with an unreachable engine the decision follows the synchronous local scan
directly and is based on pattern findings only. -/
theorem C2_decision_after_ai (settings : Option Settings) (patterns : List Pattern)
    (text : String) (aiResult : List Finding) (htext : jsTrim text ≠ "") :
    handlePasteTrace settings patterns true text aiResult =
      [PasteEvent.prevented,
       PasteEvent.localScanDone (scanLocally settings patterns text),
       PasteEvent.aiScanStarted, PasteEvent.aiScanDone aiResult,
       PasteEvent.decided (decideFindings (scanLocally settings patterns text) aiResult).outcome]
    ∧ handlePasteTrace settings patterns false text aiResult =
      [PasteEvent.prevented,
       PasteEvent.localScanDone (scanLocally settings patterns text),
       PasteEvent.decided (decideFindings (scanLocally settings patterns text) []).outcome] := by
  constructor <;> simp [handlePasteTrace, htext]

/-- Witness for C2 at a concrete text with the engine unreachable. -/
theorem C2_witness :
    handlePasteTrace none [emailPattern] false "john@x.com" [] =
      [PasteEvent.prevented,
       PasteEvent.localScanDone (scanLocally none [emailPattern] "john@x.com"),
       PasteEvent.decided
         (decideFindings (scanLocally none [emailPattern] "john@x.com") []).outcome] :=
  (C2_decision_after_ai none [emailPattern] "john@x.com" [] (by decide)).2

/-- C2 counterexample: at a concrete text with a reachable engine, the
trace of handlePaste contains no decision event before the AI scan completes
even though it does contain a decision event, refuting the claim that the
pattern-layer decision is observable strictly before the revised one. -/
theorem C2_counterexample :
    ((handlePasteTrace none [emailPattern] true "john@x.com"
        [aiPersonFinding]).takeWhile (fun ev => !(PasteEvent.isAiScanDone ev))).any
      (fun ev => PasteEvent.isDecision ev) = false ∧
    (handlePasteTrace none [emailPattern] true "john@x.com" [aiPersonFinding]).any
      (fun ev => PasteEvent.isDecision ev) = true := by
  constructor <;> rfl

theorem lookupSurface_set (l : List (Nat × Surface)) (i : Nat) (c : String) :
    lookupSurface (setSurfaceContent l i c) i
      = (lookupSurface l i).map (fun s => { s with content := c }) := by
  induction l with
  | nil => rfl
  | cons ks rest ih =>
    rcases ks with ⟨k, s⟩
    by_cases hk : k = i
    · simp [setSurfaceContent, lookupSurface, hk, ih]
    · simp [setSurfaceContent, lookupSurface, hk, ih]

theorem domLookup_set_self {dom : Dom} {i : Nat} {s : Surface}
    (h : domLookup dom i = some s) (c : String) :
    domLookup (domSetContent dom i c) i = some { s with content := c } := by
  unfold domLookup at h
  unfold domLookup domSetContent
  show lookupSurface (setSurfaceContent dom.surfaces i c) i = _
  rw [lookupSurface_set, h]
  rfl

theorem captureInsertionContext_spec {dom : Dom} {targetId : Nat}
    {ctx : InsertionContext} {s : Surface}
    (h : domLookup dom targetId = some s)
    (hcap : captureInsertionContext dom targetId = some ctx) :
    ctx.nodeId = targetId ∧ ctx.previousContent = s.content := by
  rcases s with ⟨kind, content, a, b, conn⟩
  unfold captureInsertionContext at hcap
  rw [h] at hcap
  cases kind
  · cases hcap
    exact ⟨rfl, rfl⟩
  · cases hcap
    exact ⟨rfl, rfl⟩

/-- C5: for a context captured by captureInsertionContext before any
mutation, if the captured node is still attached when the late block revision
is compensated, then after handleCancel with pasteAlreadyInserted the content
of that surface equals the prior content captured at action time. -/
theorem C5_rollback_restores_prior_content
    (dom0 dom1 : Dom) (targetId : Nat) (ctx : InsertionContext) (s0 s1 : Surface)
    (hcap : captureInsertionContext dom0 targetId = some ctx)
    (h0 : domLookup dom0 targetId = some s0)
    (h1 : domLookup dom1 ctx.nodeId = some s1)
    (hconn : s1.connected = true) :
    domLookup (handleCancel true (some ctx) dom1) ctx.nodeId
      = some { s1 with content := s0.content } := by
  obtain ⟨hnode, hprev⟩ := captureInsertionContext_spec h0 hcap
  show domLookup (restoreFromContext dom1 ctx) ctx.nodeId = _
  simp only [restoreFromContext, h1, hconn, if_true]
  rw [hprev]
  have hset := domLookup_set_self h1 s0.content
  rw [hconn] at hset
  exact hset

/-- Witness for C5 on a concrete page whose surface was mutated by an
optimistic paste. -/
theorem C5_witness :
    domLookup (handleCancel true
        (some { ctype := AnchorKind.input, nodeId := 1, selStart := 4, selEnd := 4,
                previousContent := "draft text" }) pastedDom) 1
      = some { kind := AnchorKind.input, content := "draft text", selStart := 17,
               selEnd := 17, connected := true } :=
  C5_rollback_restores_prior_content captureDom pastedDom 1 _
    { kind := AnchorKind.input, content := "draft text", selStart := 4, selEnd := 4,
      connected := true }
    { kind := AnchorKind.input, content := "draft 555-12-3456 text", selStart := 17,
      selEnd := 17, connected := true }
    rfl rfl rfl rfl

theorem aggregateStep_cont {cur : Entity} {tok : RawToken}
    (hb : jsStartsWith tok.entity "B-" = false)
    (hi : (jsStartsWith tok.entity "I-" && cur.etype == mapEntityType tok.entity) = true) :
    aggregateStep (some cur) tok =
      (some { cur with
        value := if tok.tstart - cur.eend ≤ 1 then cur.value ++ jsStripSubword tok.word
                 else cur.value ++ " " ++ jsStripSubword tok.word,
        eend := tok.tend, score := min cur.score tok.score }, []) := by
  unfold aggregateStep
  rw [hb]
  simp only [Bool.false_eq_true, if_false, hi, if_true]

theorem aggregateStep_none (tok : RawToken) :
    aggregateStep none tok = (some (newEntityOfToken tok), []) := by
  unfold aggregateStep
  split_ifs with hb
  · rfl
  · rfl

theorem aggregateStep_bound {th : ℚ} {cur : Option Entity} {tok : RawToken}
    (hcur : ∀ c, cur = some c → th ≤ c.score) (htok : th ≤ tok.score) :
    (∀ e ∈ (aggregateStep cur tok).2, th ≤ e.score)
    ∧ (∀ c, (aggregateStep cur tok).1 = some c → th ≤ c.score) := by
  cases cur with
  | none =>
    rw [aggregateStep_none]
    refine ⟨fun e he => absurd he (List.not_mem_nil e), fun c hc => ?_⟩
    cases hc
    exact htok
  | some c0 =>
    have hc0 : th ≤ c0.score := hcur c0 rfl
    by_cases hb : jsStartsWith tok.entity "B-" = true
    · have hstep : aggregateStep (some c0) tok = (some (newEntityOfToken tok), [c0]) := by
        unfold aggregateStep
        rw [hb]
        rfl
      rw [hstep]
      refine ⟨fun e he => ?_, fun c hc => ?_⟩
      · rcases List.mem_singleton.mp he with rfl
        exact hc0
      · cases hc
        exact htok
    · have hb' : jsStartsWith tok.entity "B-" = false := by
        cases hx : jsStartsWith tok.entity "B-"
        · rfl
        · exact absurd hx hb
      by_cases hi : (jsStartsWith tok.entity "I-" && c0.etype == mapEntityType tok.entity) = true
      · rw [aggregateStep_cont hb' hi]
        refine ⟨fun e he => absurd he (List.not_mem_nil e), fun c hc => ?_⟩
        cases hc
        exact le_min hc0 htok
      · have hstep : aggregateStep (some c0) tok = (some (newEntityOfToken tok), [c0]) := by
          unfold aggregateStep
          rw [hb']
          simp only [Bool.false_eq_true, if_false]
          rw [if_neg hi]
        rw [hstep]
        refine ⟨fun e he => ?_, fun c hc => ?_⟩
        · rcases List.mem_singleton.mp he with rfl
          exact hc0
        · cases hc
          exact htok

theorem aggregateLoop_score_bound {th : ℚ} :
    ∀ (toks : List RawToken) (cur : Option Entity),
      (∀ t ∈ toks, th ≤ t.score) → (∀ c, cur = some c → th ≤ c.score) →
      ∀ e ∈ aggregateLoop cur toks, th ≤ e.score
  | [], cur, _, hcur => by
    intro e he
    cases cur with
    | none => cases he
    | some c =>
      rcases List.mem_singleton.mp he with rfl
      exact hcur e rfl
  | tok :: rest, cur, htoks, hcur => by
    intro e he
    rw [aggregateLoop] at he
    have hstep := aggregateStep_bound hcur (htoks tok (List.mem_cons_self _ _))
    rcases List.mem_append.mp he with hem | hrec
    · exact hstep.1 e hem
    · exact aggregateLoop_score_bound rest (aggregateStep cur tok).1
        (fun t ht => htoks t (List.mem_cons_of_mem _ ht)) hstep.2 e hrec

theorem mem_updateType {m : List (String × Entity)} {e : Entity} {ke : String × Entity}
    (h : ke ∈ updateType m e) : ke ∈ m ∨ ke.2 = e := by
  induction m with
  | nil =>
    rw [updateType] at h
    rcases List.mem_singleton.mp h with rfl
    right
    rfl
  | cons kv rest ih =>
    rw [updateType] at h
    split_ifs at h with hk
    · rcases List.mem_cons.mp h with rfl | hmem
      · right
        rfl
      · left
        exact List.mem_cons_of_mem _ hmem
    · rcases List.mem_cons.mp h with rfl | hmem
      · left
        exact List.mem_cons_self _ _
      · rcases ih hmem with hm | he2
        · left
          exact List.mem_cons_of_mem _ hm
        · right
          exact he2

theorem byTypeFold_pres {P : Entity → Prop} {m : List (String × Entity)} {e : Entity}
    (hm : ∀ ke ∈ m, P ke.2) (he : P e) : ∀ ke ∈ byTypeFold m e, P ke.2 := by
  intro ke hke
  unfold byTypeFold at hke
  rcases hl : lookupType m e.etype with _ | ex
  · rw [hl] at hke
    rcases List.mem_append.mp hke with hmm | hs
    · exact hm ke hmm
    · rcases List.mem_singleton.mp hs with rfl
      exact he
  · have hke2 : ke ∈ (if ex.value.length < e.value.length then updateType m e else m) := by
      rw [hl] at hke
      exact hke
    split_ifs at hke2 with hlen
    · rcases mem_updateType hke2 with hmm | he2
      · exact hm ke hmm
      · rw [he2]
        exact he
    · exact hm ke hke2

theorem foldl_byTypeFold_pres {P : Entity → Prop} :
    ∀ (l : List Entity) (m : List (String × Entity)),
      (∀ ke ∈ m, P ke.2) → (∀ e ∈ l, P e) →
      ∀ ke ∈ l.foldl byTypeFold m, P ke.2
  | [], m, hm, _ => hm
  | e :: rest, m, hm, hl => by
    rw [List.foldl_cons]
    exact foldl_byTypeFold_pres rest (byTypeFold m e)
      (byTypeFold_pres hm (hl e (List.mem_cons_self _ _)))
      (fun x hx => hl x (List.mem_cons_of_mem _ hx))

theorem dedupByType_pres {P : Entity → Prop} {l : List Entity}
    (hl : ∀ e ∈ l, P e) : ∀ e ∈ dedupByType l, P e := by
  intro e he
  unfold dedupByType at he
  obtain ⟨ke, hke, rfl⟩ := List.mem_map.mp he
  exact foldl_byTypeFold_pres l [] (fun x hx => absurd hx (List.not_mem_nil x)) hl ke hke

/-- C10: every entity produced by detectEntities has a score at least the
threshold, because tokens below the threshold are filtered before
aggregation and the aggregation keeps the minimum score: a fresh accumulator
takes the token score and a continuation takes the minimum of the
accumulator score and the token score. -/
theorem C10_threshold_invariant :
    (∀ (results : List RawToken) (threshold : ℚ) (e : Entity),
        e ∈ detectEntities results threshold → threshold ≤ e.score)
    ∧ (∀ tok : RawToken, aggregateStep none tok = (some (newEntityOfToken tok), [])
        ∧ (newEntityOfToken tok).score = tok.score)
    ∧ (∀ (cur : Entity) (tok : RawToken),
        jsStartsWith tok.entity "B-" = false →
        (jsStartsWith tok.entity "I-" && cur.etype == mapEntityType tok.entity) = true →
        ((aggregateStep (some cur) tok).1.map Entity.score)
          = some (min cur.score tok.score)) := by
  refine ⟨?_, fun tok => ⟨aggregateStep_none tok, rfl⟩, fun cur tok hb hi => ?_⟩
  · intro results threshold e he
    unfold detectEntities at he
    refine dedupByType_pres (P := fun x => threshold ≤ x.score) ?_ e he
    intro x hx
    obtain ⟨y, hy, rfl⟩ := List.mem_map.mp hx
    show threshold ≤ y.score
    refine aggregateLoop_score_bound _ none ?_ (fun c hc => Option.noConfusion hc) y hy
    intro t ht
    have hmem := List.mem_filter.mp ht
    have h2 := hmem.2
    rw [Bool.and_eq_true, Bool.and_eq_true] at h2
    exact of_decide_eq_true h2.1.1
  · rw [aggregateStep_cont hb hi]
    rfl

/-- Witness for C10 on the concrete continuation step of scenario C. -/
theorem C10_witness :
    ((aggregateStep (some johnEntity) sonToken).1.map Entity.score)
      = some (min johnEntity.score sonToken.score) :=
  C10_threshold_invariant.2.2 johnEntity sonToken (by decide) (by decide)

/-- C9: an inside-tagged token of the same category as the open
accumulator is concatenated without a space when its span starts at most one
character after the accumulator end and with a single inserted space
otherwise, after stripping the subword marker; in particular the stream
B-PER John then I-PER ##son with threshold one half yields exactly one
finding with value Johnson. -/
theorem C9_contiguous_merge :
    (∀ (cur : Entity) (tok : RawToken),
        jsStartsWith tok.entity "B-" = false →
        (jsStartsWith tok.entity "I-" && cur.etype == mapEntityType tok.entity) = true →
        tok.tstart - cur.eend ≤ 1 →
        aggregateStep (some cur) tok =
          (some { cur with
                    value := cur.value ++ jsStripSubword tok.word,
                    eend := tok.tend, score := min cur.score tok.score }, []))
    ∧ (∀ (cur : Entity) (tok : RawToken),
        jsStartsWith tok.entity "B-" = false →
        (jsStartsWith tok.entity "I-" && cur.etype == mapEntityType tok.entity) = true →
        1 < tok.tstart - cur.eend →
        aggregateStep (some cur) tok =
          (some { cur with
                    value := cur.value ++ " " ++ jsStripSubword tok.word,
                    eend := tok.tend, score := min cur.score tok.score }, []))
    ∧ detectEntities [⟨"B-PER", "John", mkRat 9 10, 0, 4⟩,
        ⟨"I-PER", "##son", mkRat 8 10, 4, 7⟩] (mkRat 1 2)
      = [{ etype := "PERSON", value := "Johnson", score := mkRat 8 10,
           description := "Person Name", estart := 0, eend := 7 }] := by
  refine ⟨?_, ?_, by decide⟩
  · intro cur tok hb hi hgap
    rw [aggregateStep_cont hb hi, if_pos hgap]
  · intro cur tok hb hi hgap
    rw [aggregateStep_cont hb hi, if_neg (not_le.mpr hgap)]

/-- Witness for C9 on the concrete contiguous continuation of scenario C. -/
theorem C9_witness :
    aggregateStep (some johnEntity) sonToken =
      (some { johnEntity with
                value := johnEntity.value ++ jsStripSubword sonToken.word,
                eend := sonToken.tend, score := min johnEntity.score sonToken.score }, []) :=
  C9_contiguous_merge.1 johnEntity sonToken (by decide) (by decide) (by decide)

theorem lookupType_eq_none {m : List (String × Entity)} {t : String} :
    lookupType m t = none ↔ ∀ ke ∈ m, ke.1 ≠ t := by
  induction m with
  | nil => simp [lookupType]
  | cons kv rest ih =>
    rcases kv with ⟨k, v⟩
    by_cases hk : k = t
    · subst hk
      simp [lookupType]
    · simp [lookupType, hk, ih]

theorem lookupType_append_single :
    ∀ (m : List (String × Entity)) (k : String) (e : Entity) (t : String),
      lookupType (m ++ [(k, e)]) t =
        match lookupType m t with
        | some v => some v
        | none => if k = t then some e else none
  | [], k, e, t => rfl
  | (k', v') :: rest, k, e, t => by
    by_cases hk : k' = t
    · simp [lookupType, hk]
    · simp [lookupType, hk, lookupType_append_single rest k e t]

theorem lookupType_updateType :
    ∀ (m : List (String × Entity)) (e : Entity) (ex : Entity) (t : String),
      lookupType m e.etype = some ex →
      lookupType (updateType m e) t = if e.etype = t then some e else lookupType m t
  | [], e, ex, t, hl => by simp [lookupType] at hl
  | (k, v) :: rest, e, ex, t, hl => by
    rw [updateType]
    by_cases hk : k = e.etype
    · rw [if_pos hk]
      by_cases ht : k = t
      · rw [lookupType, if_pos ht, if_pos (hk ▸ ht)]
      · rw [lookupType, if_neg ht, if_neg (fun hh => ht (hk.trans hh)), lookupType, if_neg ht]
    · rw [if_neg hk]
      have hl2 : lookupType rest e.etype = some ex := by
        rw [lookupType, if_neg hk] at hl
        exact hl
      by_cases ht : k = t
      · have hne : e.etype ≠ t := fun hh => hk (ht.trans hh.symm)
        subst ht
        simp [lookupType, hne]
      · simp [lookupType, ht, lookupType_updateType rest e ex t hl2]

theorem lookupType_byTypeFold_same (m : List (String × Entity)) (e : Entity) :
    lookupType (byTypeFold m e) e.etype =
      match lookupType m e.etype with
      | none => some e
      | some a => if a.value.length < e.value.length then some e else some a := by
  unfold byTypeFold
  rcases hl : lookupType m e.etype with _ | ex
  · show lookupType (m ++ [(e.etype, e)]) e.etype = some e
    rw [lookupType_append_single, hl]
    simp
  · show lookupType (if ex.value.length < e.value.length then updateType m e else m) e.etype
      = if ex.value.length < e.value.length then some e else some ex
    split_ifs with hlen
    · rw [lookupType_updateType m e ex e.etype hl]
      simp
    · exact hl

theorem lookupType_byTypeFold_other (m : List (String × Entity)) (e : Entity)
    {t : String} (ht : e.etype ≠ t) :
    lookupType (byTypeFold m e) t = lookupType m t := by
  unfold byTypeFold
  rcases hl : lookupType m e.etype with _ | ex
  · show lookupType (m ++ [(e.etype, e)]) t = lookupType m t
    rw [lookupType_append_single]
    rcases lookupType m t with _ | v
    · simp [ht]
    · simp
  · show lookupType (if ex.value.length < e.value.length then updateType m e else m) t
      = lookupType m t
    split_ifs with hlen
    · rw [lookupType_updateType m e ex t hl, if_neg ht]
    · rfl

theorem lookupType_foldl (t : String) :
    ∀ (l : List Entity) (m : List (String × Entity)),
      lookupType (l.foldl byTypeFold m) t
        = (l.filter (fun e => e.etype == t)).foldl
            (fun acc e =>
              match acc with
              | none => some e
              | some a => if a.value.length < e.value.length then some e else some a)
            (lookupType m t)
  | [], m => rfl
  | e :: rest, m => by
    rw [List.foldl_cons, List.filter_cons]
    by_cases ht : e.etype = t
    · rw [if_pos (show (e.etype == t) = true from beq_iff_eq.mpr ht)]
      rw [List.foldl_cons]
      rw [lookupType_foldl t rest (byTypeFold m e)]
      congr 1
      rw [← ht, lookupType_byTypeFold_same]
    · rw [if_neg (show ¬ (e.etype == t) = true by simp [beq_eq_false_iff_ne.mpr ht])]
      rw [lookupType_foldl t rest (byTypeFold m e)]
      congr 1
      exact lookupType_byTypeFold_other m e ht

theorem updateType_keys :
    ∀ (m : List (String × Entity)) (e : Entity) (ex : Entity),
      lookupType m e.etype = some ex →
      (updateType m e).map (fun ke => ke.1) = m.map (fun ke => ke.1)
  | [], e, ex, hl => by simp [lookupType] at hl
  | (k, v) :: rest, e, ex, hl => by
    rw [updateType]
    by_cases hk : k = e.etype
    · rw [if_pos hk]
      simp
    · rw [if_neg hk]
      have hl2 : lookupType rest e.etype = some ex := by
        rw [lookupType, if_neg hk] at hl
        exact hl
      simp [updateType_keys rest e ex hl2]

theorem updateType_types :
    ∀ (m : List (String × Entity)) (e : Entity),
      (∀ ke ∈ m, ke.2.etype = ke.1) →
      ∀ ke ∈ updateType m e, ke.2.etype = ke.1
  | [], e, _ => by
    intro ke hke
    rw [updateType] at hke
    rcases List.mem_singleton.mp hke with rfl
    rfl
  | (k, v) :: rest, e, hm => by
    intro ke hke
    rw [updateType] at hke
    split_ifs at hke with hk
    · rcases List.mem_cons.mp hke with rfl | hmem
      · exact hk.symm
      · exact hm ke (List.mem_cons_of_mem _ hmem)
    · rcases List.mem_cons.mp hke with rfl | hmem
      · exact hm (k, v) (List.mem_cons_self _ _)
      · exact updateType_types rest e (fun x hx => hm x (List.mem_cons_of_mem _ hx)) ke hmem

theorem mapWf_byTypeFold {m : List (String × Entity)} {e : Entity} (hw : mapWf m) :
    mapWf (byTypeFold m e) := by
  obtain ⟨hty, hnd⟩ := hw
  rcases hl : lookupType m e.etype with _ | ex
  · have heq : byTypeFold m e = m ++ [(e.etype, e)] := by
      unfold byTypeFold
      rw [hl]
    rw [heq]
    constructor
    · intro ke hke
      rcases List.mem_append.mp hke with hmm | hs
      · exact hty ke hmm
      · rcases List.mem_singleton.mp hs with rfl
        rfl
    · rw [List.map_append]
      rw [List.nodup_append]
      refine ⟨hnd, List.nodup_singleton _, fun a ha hb => ?_⟩
      rcases List.mem_singleton.mp hb with rfl
      obtain ⟨ke, hkem, hkee⟩ := List.mem_map.mp ha
      exact (lookupType_eq_none.mp hl) ke hkem hkee
  · have heq : byTypeFold m e =
        if ex.value.length < e.value.length then updateType m e else m := by
      unfold byTypeFold
      rw [hl]
    rw [heq]
    split_ifs with hlen
    · refine ⟨updateType_types m e hty, ?_⟩
      rw [updateType_keys m e ex hl]
      exact hnd
    · exact ⟨hty, hnd⟩

theorem mapWf_foldl :
    ∀ (l : List Entity) (m : List (String × Entity)), mapWf m →
      mapWf (l.foldl byTypeFold m)
  | [], _, hw => hw
  | e :: rest, m, hw => by
    rw [List.foldl_cons]
    exact mapWf_foldl rest _ (mapWf_byTypeFold hw)

theorem filter_map_snd :
    ∀ (m : List (String × Entity)), mapWf m → ∀ t,
      (m.map (fun ke => ke.2)).filter (fun e => e.etype == t) = (lookupType m t).toList
  | [], _, t => rfl
  | (k, v) :: rest, hw, t => by
    obtain ⟨hty, hnd⟩ := hw
    have hvk : v.etype = k := hty (k, v) (List.mem_cons_self _ _)
    have hnd2 : (k :: rest.map (fun ke => ke.1)).Nodup := by simpa using hnd
    have hknotin : k ∉ rest.map (fun ke => ke.1) := (List.nodup_cons.mp hnd2).1
    have hwrest : mapWf rest :=
      ⟨fun ke hke => hty ke (List.mem_cons_of_mem _ hke), (List.nodup_cons.mp hnd2).2⟩
    rw [List.map_cons, List.filter_cons]
    show _ = (if k = t then some v else lookupType rest t).toList
    by_cases hk : k = t
    · subst hk
      rw [if_pos (show (v.etype == k) = true from beq_iff_eq.mpr hvk), if_pos rfl]
      have hrest : (rest.map (fun ke => ke.2)).filter (fun e => e.etype == k) = [] := by
        rw [List.filter_eq_nil_iff]
        intro e he hbe
        obtain ⟨ke, hkem, rfl⟩ := List.mem_map.mp he
        have h1 : ke.1 = k := by
          have h2 : ke.2.etype = ke.1 := hty ke (List.mem_cons_of_mem _ hkem)
          rw [← h2]
          exact beq_iff_eq.mp hbe
        exact hknotin (h1 ▸ List.mem_map.mpr ⟨ke, hkem, rfl⟩)
      rw [hrest]
      rfl
    · have hvt : ¬ ((v.etype == t) = true) := by
        simp [beq_eq_false_iff_ne.mpr (show v.etype ≠ t by rw [hvk]; exact hk)]
      rw [if_neg hvt, if_neg hk]
      exact filter_map_snd rest hwrest t

theorem keepFold_spec :
    ∀ (es : List Entity) (acc : Option Entity) (e : Entity),
      es.foldl (fun acc e =>
        match acc with
        | none => some e
        | some a => if a.value.length < e.value.length then some e else some a) acc
        = some e →
      (e ∈ es ∨ acc = some e)
      ∧ (∀ x ∈ es, x.value.length ≤ e.value.length)
      ∧ (∀ a, acc = some a → a.value.length ≤ e.value.length)
  | [], acc, e, h => by
    refine ⟨Or.inr h, fun x hx => absurd hx (List.not_mem_nil x), fun a ha => ?_⟩
    rw [ha] at h
    cases h
    exact le_refl _
  | x :: rest, acc, e, h => by
    rw [List.foldl_cons] at h
    obtain ⟨hmem, hbound, haccb⟩ := keepFold_spec rest _ e h
    have hstep : ∀ a, (match acc with
        | none => some x
        | some a0 => if a0.value.length < x.value.length then some x else some a0) = some a →
        x.value.length ≤ a.value.length ∧ (a = x ∨ acc = some a)
          ∧ (∀ a0, acc = some a0 → a0.value.length ≤ a.value.length) := by
      intro a ha
      cases acc with
      | none =>
        cases ha
        exact ⟨le_refl _, Or.inl rfl, fun a0 h0 => Option.noConfusion h0⟩
      | some a0 =>
        have ha2 : (if a0.value.length < x.value.length then some x else some a0) = some a := ha
        split_ifs at ha2 with hlt
        · cases ha2
          exact ⟨le_refl _, Or.inl rfl,
            fun a1 h1 => by cases h1; exact le_of_lt hlt⟩
        · cases ha2
          exact ⟨le_of_not_lt hlt, Or.inr rfl,
            fun a1 h1 => by cases h1; exact le_refl _⟩
    have hex : ∃ a, (match acc with
        | none => some x
        | some a0 => if a0.value.length < x.value.length then some x else some a0) = some a := by
      cases acc with
      | none => exact ⟨x, rfl⟩
      | some a0 =>
        by_cases hlt : a0.value.length < x.value.length
        · exact ⟨x, by simp [hlt]⟩
        · exact ⟨a0, by simp [hlt]⟩
    obtain ⟨a, hstepa⟩ := hex
    have hfacts := hstep a hstepa
    have halen : a.value.length ≤ e.value.length := haccb a hstepa
    refine ⟨?_, ?_, ?_⟩
    · rcases hmem with hin | hacc
      · exact Or.inl (List.mem_cons_of_mem _ hin)
      · rcases (hstep e hacc).2.1 with rfl | hae
        · exact Or.inl (List.mem_cons_self _ _)
        · exact Or.inr hae
    · intro y hy
      rcases List.mem_cons.mp hy with rfl | hyr
      · exact le_trans hfacts.1 halen
      · exact hbound y hyr
    · intro a0 h0
      exact le_trans (hfacts.2.2 a0 h0) halen

/-- C8: deduplication by entity category keeps exactly one finding per
category present in the input, namely the first-seen entity of maximal value
length: the category filter of the deduplicated output equals the
specification-side selection, and that selection is a member of the input of
the right category whose value length bounds every input entity of that
category. -/
theorem C8_dedup_longest_first_seen :
    (∀ (l : List Entity) (t : String),
        (dedupByType l).filter (fun e => e.etype == t) = (specKeepLongest l t).toList)
    ∧ (∀ (l : List Entity) (t : String) (e : Entity), specKeepLongest l t = some e →
        e ∈ l ∧ e.etype = t
          ∧ ∀ x ∈ l, x.etype = t → x.value.length ≤ e.value.length) := by
  constructor
  · intro l t
    unfold dedupByType
    rw [filter_map_snd _
      (mapWf_foldl l [] ⟨fun ke hke => absurd hke (List.not_mem_nil ke), List.nodup_nil⟩) t]
    rw [lookupType_foldl t l []]
    rfl
  · intro l t e hse
    obtain ⟨hmem, hbound, _⟩ :=
      keepFold_spec (l.filter (fun x => x.etype == t)) none e hse
    rcases hmem with hin | habs
    · have hin2 := List.mem_filter.mp hin
      refine ⟨hin2.1, beq_iff_eq.mp hin2.2, fun x hx hxt => ?_⟩
      exact hbound x (List.mem_filter.mpr ⟨hx, beq_iff_eq.mpr hxt⟩)
    · exact Option.noConfusion habs

/-- Witness for C8 on a concrete singleton entity list. -/
theorem C8_witness :
    johnEntity ∈ [johnEntity] ∧ johnEntity.etype = "PERSON"
      ∧ ∀ x ∈ [johnEntity], x.etype = "PERSON" → x.value.length ≤ johnEntity.value.length :=
  C8_dedup_longest_first_seen.2 [johnEntity] "PERSON" johnEntity (by decide)

end PrivacyFirewall
